import Mathlib

/-!
# Verification of `drizzle-effect` schema derivation

A shallow embedding of `src/drizzle-effect/src/index.ts`: the column type
mapper `mapColumnToSchema`, the JSON value schemas, and the two public
entry points `createInsertSchema` / `createSelectSchema`, together with a
decode semantics for the fragment of the `effect` `Schema` combinator
language that the library uses.

Runtime values are modelled by `Value`; validators by the deep embedding
`SchemaV`, with `decode` giving the success/failure behaviour of the
external schema engine on each combinator actually used by the library.
Tables are ordered lists of `Column` descriptors (JavaScript objects keep
insertion order), and the intermediate `schemaEntries` object is modelled
as an association list with JavaScript object-update semantics
(`insertEntry` = property assignment, `fromEntries` / `assignEntries` =
`Object.fromEntries` / `Object.assign`).
-/

set_option autoImplicit false

namespace DrizzleEffect

/-- A runtime value as seen by the validators: JSON-style data plus the
native `Date` and `bigint` values the mapper's validators can accept. -/
inductive Value where
  | str (s : String)
  | num (n : Int)
  | bool (b : Bool)
  | null
  | bigint (n : Int)
  | date (t : Int)
  | record (fields : List (String × Value))
  | arr (elems : List Value)

/-- Deep embedding of the `effect` Schema combinators used by the library.
`sUnion` is binary; the source's n-ary `Schema.Union(a, b, ...)` is
represented right-nested, which has the same decode behaviour (a union
decodes a value iff some member does). `sStrictJson` stands for the
separately exported recursive `StrictJsonValue` schema. -/
inductive SchemaV where
  | sString
  | sNumber
  | sBoolean
  | sNull
  | sUnknown
  | sAny
  | sUUID
  | sBigIntFromSelf
  | sDateFromSelf
  | sLiteral (values : List String)
  | sMaxLength (n : Nat) (inner : SchemaV)
  | sRecord (value : SchemaV)
  | sArray (elem : SchemaV)
  | sUnion (left right : SchemaV)
  | sStrictJson
  deriving DecidableEq, Repr

/-- Effect's `Schema.NullOr(s)` is `Schema.Union(s, Schema.Null)`. -/
def sNullOr (s : SchemaV) : SchemaV := SchemaV.sUnion s SchemaV.sNull

/-- Hex digit test used by the UUID format check of the external engine. -/
def isHexDigit (c : Char) : Bool :=
  c.isDigit || (('a' ≤ c) && (c ≤ 'f')) || (('A' ≤ c) && (c ≤ 'F'))

/-- The 8-4-4-4-12 hexadecimal shape accepted by `Schema.UUID`
(behaviour of the external schema engine, out of scope for the claims). -/
def uuidLike (s : String) : Bool :=
  match s.splitOn "-" with
  | [a, b, c, d, e] =>
    a.length = 8 && b.length = 4 && c.length = 4 && d.length = 4
      && e.length = 12 && (a ++ b ++ c ++ d ++ e).toList.all isHexDigit
  | _ => false

/-- Full recursive JSON check: the decode behaviour of the exported
`StrictJsonValue` schema (strings, numbers, booleans, null, and
records/arrays of strict JSON values, recursively). -/
def isStrictJsonValue : Value → Bool
  | .str _ => true
  | .num _ => true
  | .bool _ => true
  | .null => true
  | .bigint _ => false
  | .date _ => false
  | .record fields => fields.attach.all (fun p => isStrictJsonValue p.1.2)
  | .arr elems => elems.attach.all (fun v => isStrictJsonValue v.1)
decreasing_by
  · obtain ⟨⟨a, b⟩, hm⟩ := p
    have h1 := List.sizeOf_lt_of_mem hm
    simp at h1 ⊢
    omega
  · have h1 := List.sizeOf_lt_of_mem v.2
    simp
    omega

/-- Does decoding `v` against schema `s` succeed?  Mirrors the external
engine: structs are handled separately by `decodeStruct`. -/
def decode : SchemaV → Value → Bool
  | .sString, v => match v with | .str _ => true | _ => false
  | .sNumber, v => match v with | .num _ => true | _ => false
  | .sBoolean, v => match v with | .bool _ => true | _ => false
  | .sNull, v => match v with | .null => true | _ => false
  | .sUnknown, _ => true
  | .sAny, _ => true
  | .sUUID, v => match v with | .str s => uuidLike s | _ => false
  | .sBigIntFromSelf, v => match v with | .bigint _ => true | _ => false
  | .sDateFromSelf, v => match v with | .date _ => true | _ => false
  | .sLiteral values, v => match v with | .str s => decide (s ∈ values) | _ => false
  | .sMaxLength n inner, v =>
    decode inner v && (match v with | .str s => decide (s.length ≤ n) | _ => true)
  | .sRecord value, v =>
    match v with
    | .record fields => fields.all (fun p => decode value p.2)
    | _ => false
  | .sArray elem, v =>
    match v with
    | .arr elems => elems.all (fun x => decode elem x)
    | _ => false
  | .sUnion left right, v => decode left v || decode right v
  | .sStrictJson, v => isStrictJsonValue v

/-- The exported non-recursive `JsonValue` schema:
`Schema.Union(String, Number, Boolean, Null, Record({String, Unknown}), Array(Unknown))`. -/
def JsonValue : SchemaV :=
  .sUnion .sString (.sUnion .sNumber (.sUnion .sBoolean (.sUnion .sNull
    (.sUnion (.sRecord .sUnknown) (.sArray .sUnknown)))))

/-- The exported recursive `StrictJsonValue` schema. -/
def StrictJsonValue : SchemaV := SchemaV.sStrictJson

/-- A column descriptor as the runtime code sees it: `dataType` and
`columnType` are plain strings (drizzle exposes them as string tags),
`enumValues` is `some vs` when the object carries an `enumValues` array
field, `length` is `some n` when `column.length` is a number.  The
`array` constructor is a descriptor that carries a `baseColumn` field
(drizzle's `PgArray`); `base` is one that does not. -/
inductive Column where
  | base (name : String) (dataType : String) (columnType : String)
      (notNull : Bool) (hasDefault : Bool)
      (enumValues : Option (List String)) (length : Option Nat)
  | array (name : String) (dataType : String) (columnType : String)
      (notNull : Bool) (hasDefault : Bool)
      (enumValues : Option (List String)) (length : Option Nat)
      (baseColumn : Column)

namespace Column

def name : Column → String
  | .base n _ _ _ _ _ _ => n
  | .array n _ _ _ _ _ _ _ => n

def dataType : Column → String
  | .base _ d _ _ _ _ _ => d
  | .array _ d _ _ _ _ _ _ => d

def columnType : Column → String
  | .base _ _ c _ _ _ _ => c
  | .array _ _ c _ _ _ _ _ => c

def notNull : Column → Bool
  | .base _ _ _ nn _ _ _ => nn
  | .array _ _ _ nn _ _ _ _ => nn

def hasDefault : Column → Bool
  | .base _ _ _ _ hd _ _ => hd
  | .array _ _ _ _ hd _ _ _ => hd

def enumValues : Column → Option (List String)
  | .base _ _ _ _ _ ev _ => ev
  | .array _ _ _ _ _ ev _ _ => ev

def length : Column → Option Nat
  | .base _ _ _ _ _ _ l => l
  | .array _ _ _ _ _ _ l _ => l

def baseColumn : Column → Option Column
  | .base _ _ _ _ _ _ _ => none
  | .array _ _ _ _ _ _ _ b => some b

end Column

/-- Predicate `isWithEnum`: the column carries an `enumValues` array field and it is
non-empty (index.ts:241-249). -/
def isWithEnum (c : Column) : Bool :=
  match c.enumValues with
  | some vs => 0 < vs.length
  | none => false

/-- The bounded-text storage variants recognized by the max-length rule
(index.ts:222-228): `Drizzle.is(column, ...)` instance tests modelled as
column-type tag equality. -/
def boundedTextVariant (columnType : String) : Bool :=
  columnType = "PgChar" || columnType = "PgVarchar"
    || columnType = "MySqlVarChar" || columnType = "MySqlVarBinary"
    || columnType = "MySqlChar" || columnType = "SQLiteText"

/-- The body of `mapColumnToSchema` (index.ts:191-239) over the column's
fields. `baseSchema` is the already-mapped base column when the descriptor
carries one; a descriptor of data kind `array` without a `baseColumn`
field is outside the data model (drizzle's array columns always carry
one), and that branch is unreachable for well-formed descriptors. -/
def mapColumnCore (dataType columnType : String)
    (enumValues : Option (List String)) (length : Option Nat)
    (baseSchema : Option SchemaV) : SchemaV :=
  let type0 : Option SchemaV :=
    match enumValues with
    | some vs =>
      if 0 < vs.length then
        some (if vs.length ≠ 0 then SchemaV.sLiteral vs else SchemaV.sString)
      else none
    | none => none
  let type1 : Option SchemaV :=
    match type0 with
    | some t => some t
    | none =>
      if columnType = "PgUUID" then some .sUUID
      else if dataType = "custom" then some .sAny
      else if dataType = "json" then some JsonValue
      else if dataType = "array" then
        some (match baseSchema with
              | some s => .sArray s
              | none => .sAny)
      else if dataType = "number" then some .sNumber
      else if dataType = "bigint" then some .sBigIntFromSelf
      else if dataType = "boolean" then some .sBoolean
      else if dataType = "date" then some .sDateFromSelf
      else if dataType = "string" then
        some (match length with
              | some n =>
                if boundedTextVariant columnType then
                  .sMaxLength n .sString
                else .sString
              | none => .sString)
      else none
  type1.getD .sAny

/-- Runtime mapper `mapColumnToSchema` (index.ts:191-239): enum detection first, then the
`PgUUID` instance test, then dispatch on `dataType`, with the recursive
call on an array column's base descriptor, and the `type || Schema.Any`
fallback. -/
def mapColumnToSchema : Column → SchemaV
  | .base _ dataType columnType _ _ enumValues length =>
    mapColumnCore dataType columnType enumValues length none
  | .array _ dataType columnType _ _ enumValues length b =>
    mapColumnCore dataType columnType enumValues length (some (mapColumnToSchema b))

/-! ## JavaScript object semantics

The intermediate `schemaEntries` object is an ordered string-keyed map.
`lookupEntry` is property read, `updateEntry` is assignment to an existing
key (value replaced, position kept), `insertEntry` is general assignment
(update if present, else append), and `assignEntries` is `Object.assign`.
-/

/-- Property read: the first entry with the given key. -/
def lookupEntry {α : Type} : List (String × α) → String → Option α
  | [], _ => none
  | (k, v) :: rest, key => if k = key then some v else lookupEntry rest key

/-- Replace the value at `key`, keeping its position; no-op when absent. -/
def updateEntry {α : Type} : List (String × α) → String → (α → α) → List (String × α)
  | [], _, _ => []
  | (k, v) :: rest, key, f =>
    if k = key then (k, f v) :: updateEntry rest key f
    else (k, v) :: updateEntry rest key f

/-- Property assignment: update in place when the key exists, else append. -/
def insertEntry {α : Type} (es : List (String × α)) (kv : String × α) :
    List (String × α) :=
  if (lookupEntry es kv.1).isSome then updateEntry es kv.1 (fun _ => kv.2)
  else es ++ [kv]

/-- Model of `Object.assign(es, Object.fromEntries(extra))`. -/
def assignEntries {α : Type} (es extra : List (String × α)) : List (String × α) :=
  extra.foldl insertEntry es

/-- Model of `Object.fromEntries`. -/
def fromEntries {α : Type} (l : List (String × α)) : List (String × α) :=
  assignEntries [] l

/-! ## Struct fields and struct decoding -/

/-- A field of the final `Schema.Struct`: `optional := true` is a
`Schema.optional(...)` property signature (the key may be omitted),
`optional := false` a plain required field. -/
structure FieldSpec where
  optional : Bool
  schema : SchemaV
  deriving DecidableEq, Repr

/-- Decoding a record against `Schema.Struct(fields)`: every field must
either be present and decode against its schema, or be marked optional;
excess input keys are ignored (the engine's default). -/
def decodeStruct (fields : List (String × FieldSpec)) (input : List (String × Value)) :
    Bool :=
  fields.all (fun p =>
    match lookupEntry input p.1 with
    | some v => decode p.2.schema v
    | none => p.2.optional)

/-! ## Refinements and the two public entry points -/

/-- A refinement entry: either a finished validator or a validator-producing
function receiving the full auto-derived name-to-validator mapping. -/
inductive RefineArg where
  | schema (s : SchemaV)
  | fn (f : List (String × SchemaV) → SchemaV)

/-- The auto-derived mapping: `Object.fromEntries(columnEntries.map(([name,
column]) => [name, mapColumnToSchema(column)]))` (index.ts:127-129). -/
def autoEntries (table : List Column) : List (String × SchemaV) :=
  fromEntries (table.map (fun c => (c.name, mapColumnToSchema c)))

/-- Evaluate one refinement entry against the auto-derived mapping: a
function is invoked with the full mapping, a plain validator is used as
is (index.ts:133-138). -/
def refineValue (arg : RefineArg) (entries : List (String × SchemaV)) : SchemaV :=
  match arg with
  | .schema s => s
  | .fn f => f entries

/-- The refinement merge (index.ts:132-141): every refinement entry is
evaluated against the un-refined auto mapping, then the results are
object-assigned onto it. -/
def mergeRefine (entries : List (String × SchemaV)) (r : List (String × RefineArg)) :
    List (String × SchemaV) :=
  assignEntries entries (r.map (fun p => (p.1, refineValue p.2 entries)))

/-- The insert-mode optionality loop body (index.ts:144-152): a nullable
column becomes `Schema.optional(Schema.NullOr(...))`, a non-nullable
column with a default `Schema.optional(...)`, anything else is left as is. -/
def insertRuleStep (es : List (String × FieldSpec)) (c : Column) :
    List (String × FieldSpec) :=
  if !c.notNull then
    updateEntry es c.name (fun fs => ⟨true, sNullOr fs.schema⟩)
  else if c.hasDefault then
    updateEntry es c.name (fun fs => ⟨true, fs.schema⟩)
  else es

/-- The select-mode nullability loop body (index.ts:181-185): a nullable
column becomes `Schema.NullOr(...)`, still a required field. -/
def selectRuleStep (es : List (String × FieldSpec)) (c : Column) :
    List (String × FieldSpec) :=
  if !c.notNull then
    updateEntry es c.name (fun fs => ⟨false, sNullOr fs.schema⟩)
  else es

/-- Entry point `createInsertSchema` (index.ts:120-155): auto-map the columns, merge
refinements, then run the insert-specific optionality loop over the
table's columns, and build the struct from the resulting entries. -/
def createInsertSchema (table : List Column)
    (refine : Option (List (String × RefineArg))) : List (String × FieldSpec) :=
  let entries := autoEntries table
  let merged :=
    match refine with
    | none => entries
    | some r => mergeRefine entries r
  table.foldl insertRuleStep (merged.map (fun p => (p.1, ⟨false, p.2⟩)))

/-- Entry point `createSelectSchema` (index.ts:157-188): auto-map the columns, merge
refinements, then run the select-specific nullability loop over the
table's columns, and build the struct from the resulting entries. -/
def createSelectSchema (table : List Column)
    (refine : Option (List (String × RefineArg))) : List (String × FieldSpec) :=
  let entries := autoEntries table
  let merged :=
    match refine with
    | none => entries
    | some r => mergeRefine entries r
  table.foldl selectRuleStep (merged.map (fun p => (p.1, ⟨false, p.2⟩)))

/-- What the insert-mode loop does to one column's entry. -/
def insertWrap (c : Column) (fs : FieldSpec) : FieldSpec :=
  if !c.notNull then ⟨true, sNullOr fs.schema⟩
  else if c.hasDefault then ⟨true, fs.schema⟩
  else fs

/-- What the select-mode loop does to one column's entry. -/
def selectWrap (c : Column) (fs : FieldSpec) : FieldSpec :=
  if !c.notNull then ⟨false, sNullOr fs.schema⟩ else fs

/-- Does a schema mention the strict recursive JSON schema anywhere? -/
def strictFree : SchemaV → Bool
  | .sMaxLength _ inner => strictFree inner
  | .sRecord v => strictFree v
  | .sArray e => strictFree e
  | .sUnion a b => strictFree a && strictFree b
  | .sStrictJson => false
  | _ => true

/-! ## Lemmas about the object operations -/

theorem lookupEntry_map_value {α β : Type} (es : List (String × α)) (f : α → β)
    (k : String) :
    lookupEntry (es.map (fun p => (p.1, f p.2))) k = (lookupEntry es k).map f := by
  induction es with
  | nil => rfl
  | cons p rest ih =>
    obtain ⟨k', v⟩ := p
    simp only [List.map_cons, lookupEntry]
    by_cases h : k' = k <;> simp [h, ih]

theorem keys_map_value {α β : Type} (es : List (String × α)) (f : α → β) :
    (es.map (fun p => (p.1, f p.2))).map Prod.fst = es.map Prod.fst := by
  simp [List.map_map, Function.comp_def]

theorem lookupEntry_updateEntry {α : Type} (es : List (String × α)) (key : String)
    (f : α → α) (k : String) :
    lookupEntry (updateEntry es key f) k =
      if k = key then (lookupEntry es k).map f else lookupEntry es k := by
  induction es with
  | nil => by_cases h : k = key <;> simp [updateEntry, lookupEntry, h]
  | cons p rest ih =>
    obtain ⟨k', v⟩ := p
    by_cases h1 : k' = key
    · subst h1
      by_cases h2 : k' = k
      · subst h2
        simp [updateEntry, lookupEntry]
      · simp [updateEntry, lookupEntry, h2, ih, Ne.symm h2]
    · by_cases h2 : k' = k
      · subst h2
        simp [updateEntry, lookupEntry, h1, Ne.symm h1]
      · simp [updateEntry, lookupEntry, h1, h2, ih]

theorem keys_updateEntry {α : Type} (es : List (String × α)) (key : String)
    (f : α → α) :
    (updateEntry es key f).map Prod.fst = es.map Prod.fst := by
  induction es with
  | nil => rfl
  | cons p rest ih =>
    obtain ⟨k', v⟩ := p
    by_cases h : k' = key <;> simp [updateEntry, h, ih]

theorem lookupEntry_append {α : Type} (es fs : List (String × α)) (k : String) :
    lookupEntry (es ++ fs) k =
      match lookupEntry es k with
      | some v => some v
      | none => lookupEntry fs k := by
  induction es with
  | nil => simp [lookupEntry]
  | cons p rest ih =>
    obtain ⟨k', v⟩ := p
    by_cases h : k' = k <;> simp [lookupEntry, h, ih]

theorem lookupEntry_eq_none_of_not_mem {α : Type} (es : List (String × α))
    (k : String) (h : k ∉ es.map Prod.fst) : lookupEntry es k = none := by
  induction es with
  | nil => rfl
  | cons p rest ih =>
    obtain ⟨k', v⟩ := p
    simp only [List.map_cons, List.mem_cons] at h
    push_neg at h
    simp [lookupEntry, Ne.symm h.1, ih h.2]

theorem lookupEntry_insertEntry {α : Type} (es : List (String × α)) (key : String)
    (v : α) (k : String) :
    lookupEntry (insertEntry es (key, v)) k =
      if k = key then some v else lookupEntry es k := by
  by_cases hp : (lookupEntry es key).isSome
  · simp only [insertEntry]
    rw [if_pos hp, lookupEntry_updateEntry]
    by_cases h : k = key
    · subst h
      obtain ⟨w, hw⟩ := Option.isSome_iff_exists.mp hp
      simp [hw]
    · simp [h]
  · simp only [insertEntry]
    rw [if_neg hp, lookupEntry_append]
    rw [Option.not_isSome_iff_eq_none] at hp
    by_cases h : k = key
    · subst h
      rw [hp]
      simp [lookupEntry]
    · cases hlk : lookupEntry es k with
      | some w => simp [hlk, h]
      | none => simp [hlk, lookupEntry, h, Ne.symm h]

theorem lookupEntry_assignEntries {α : Type} (extra : List (String × α))
    (es : List (String × α)) (k : String)
    (hnd : (extra.map Prod.fst).Nodup) :
    lookupEntry (assignEntries es extra) k =
      match lookupEntry extra k with
      | some v => some v
      | none => lookupEntry es k := by
  induction extra generalizing es with
  | nil => simp [assignEntries, lookupEntry]
  | cons p rest ih =>
    obtain ⟨k', v⟩ := p
    simp only [List.map_cons, List.nodup_cons] at hnd
    have hrest := ih (insertEntry es (k', v)) hnd.2
    simp only [assignEntries, List.foldl_cons] at *
    rw [hrest]
    by_cases h : k' = k
    · subst h
      have hnone : lookupEntry rest k' = none :=
        lookupEntry_eq_none_of_not_mem rest k' hnd.1
      simp [hnone, lookupEntry, lookupEntry_insertEntry]
    · simp only [lookupEntry, h, if_neg]
      cases hlk : lookupEntry rest k <;>
        simp [lookupEntry_insertEntry, hlk, fun hh => h (Eq.symm hh), Ne.symm h]

theorem assignEntries_disjoint {α : Type} (extra : List (String × α)) :
    ∀ es : List (String × α),
      (∀ p ∈ extra, lookupEntry es p.1 = none) →
      (extra.map Prod.fst).Nodup →
      assignEntries es extra = es ++ extra := by
  induction extra with
  | nil => simp [assignEntries]
  | cons p rest ih =>
    intro es hdisj hnd
    obtain ⟨k, v⟩ := p
    simp only [List.map_cons, List.nodup_cons] at hnd
    have hknone : lookupEntry es k = none := hdisj (k, v) (List.mem_cons_self _ _)
    have hstep : insertEntry es (k, v) = es ++ [(k, v)] := by
      simp [insertEntry, hknone]
    simp only [assignEntries, List.foldl_cons] at *
    rw [hstep, ih (es ++ [(k, v)])]
    · simp
    · intro q hq
      rw [lookupEntry_append, hdisj q (List.mem_cons_of_mem _ hq)]
      have hqk : q.1 ≠ k := by
        intro hc
        exact hnd.1 (hc ▸ List.mem_map_of_mem Prod.fst hq)
      simp [lookupEntry, Ne.symm hqk]
    · exact hnd.2

theorem fromEntries_of_nodup {α : Type} (l : List (String × α))
    (hnd : (l.map Prod.fst).Nodup) : fromEntries l = l := by
  unfold fromEntries
  rw [assignEntries_disjoint l [] (fun p _ => rfl) hnd]
  simp

/-! ## Lemmas about the mode-rule loops -/

theorem lookupEntry_insertRuleStep_ne (es : List (String × FieldSpec)) (c : Column)
    (k : String) (h : k ≠ c.name) :
    lookupEntry (insertRuleStep es c) k = lookupEntry es k := by
  unfold insertRuleStep
  by_cases h1 : c.notNull <;> by_cases h2 : c.hasDefault <;>
    simp [h1, h2, lookupEntry_updateEntry, h]

theorem lookupEntry_insertRuleStep_self (es : List (String × FieldSpec)) (c : Column) :
    lookupEntry (insertRuleStep es c) c.name =
      (lookupEntry es c.name).map (insertWrap c) := by
  unfold insertRuleStep insertWrap
  by_cases h1 : c.notNull <;> by_cases h2 : c.hasDefault <;>
    simp [h1, h2, lookupEntry_updateEntry]

theorem lookupEntry_selectRuleStep_ne (es : List (String × FieldSpec)) (c : Column)
    (k : String) (h : k ≠ c.name) :
    lookupEntry (selectRuleStep es c) k = lookupEntry es k := by
  unfold selectRuleStep
  by_cases h1 : c.notNull <;> simp [h1, lookupEntry_updateEntry, h]

theorem lookupEntry_selectRuleStep_self (es : List (String × FieldSpec)) (c : Column) :
    lookupEntry (selectRuleStep es c) c.name =
      (lookupEntry es c.name).map (selectWrap c) := by
  unfold selectRuleStep selectWrap
  by_cases h1 : c.notNull <;> simp [h1, lookupEntry_updateEntry]

theorem foldl_insertRuleStep_not_mem (cols : List Column)
    (es : List (String × FieldSpec)) (k : String) (h : k ∉ cols.map Column.name) :
    lookupEntry (cols.foldl insertRuleStep es) k = lookupEntry es k := by
  induction cols generalizing es with
  | nil => rfl
  | cons c0 rest ih =>
    simp only [List.map_cons, List.mem_cons] at h
    push_neg at h
    rw [List.foldl_cons, ih _ h.2, lookupEntry_insertRuleStep_ne _ _ _ h.1]

theorem foldl_selectRuleStep_not_mem (cols : List Column)
    (es : List (String × FieldSpec)) (k : String) (h : k ∉ cols.map Column.name) :
    lookupEntry (cols.foldl selectRuleStep es) k = lookupEntry es k := by
  induction cols generalizing es with
  | nil => rfl
  | cons c0 rest ih =>
    simp only [List.map_cons, List.mem_cons] at h
    push_neg at h
    rw [List.foldl_cons, ih _ h.2, lookupEntry_selectRuleStep_ne _ _ _ h.1]

theorem foldl_insertRuleStep_mem (cols : List Column)
    (es : List (String × FieldSpec)) (c : Column)
    (hnd : (cols.map Column.name).Nodup) (hc : c ∈ cols) :
    lookupEntry (cols.foldl insertRuleStep es) c.name =
      (lookupEntry es c.name).map (insertWrap c) := by
  induction cols generalizing es with
  | nil => cases hc
  | cons c0 rest ih =>
    simp only [List.map_cons, List.nodup_cons] at hnd
    rcases List.mem_cons.mp hc with rfl | htail
    · rw [List.foldl_cons, foldl_insertRuleStep_not_mem rest _ _ hnd.1,
        lookupEntry_insertRuleStep_self]
    · have hne : c.name ≠ c0.name := by
        intro hh
        exact hnd.1 (hh ▸ List.mem_map_of_mem Column.name htail)
      rw [List.foldl_cons, ih _ hnd.2 htail, lookupEntry_insertRuleStep_ne _ _ _ hne]

theorem foldl_selectRuleStep_mem (cols : List Column)
    (es : List (String × FieldSpec)) (c : Column)
    (hnd : (cols.map Column.name).Nodup) (hc : c ∈ cols) :
    lookupEntry (cols.foldl selectRuleStep es) c.name =
      (lookupEntry es c.name).map (selectWrap c) := by
  induction cols generalizing es with
  | nil => cases hc
  | cons c0 rest ih =>
    simp only [List.map_cons, List.nodup_cons] at hnd
    rcases List.mem_cons.mp hc with rfl | htail
    · rw [List.foldl_cons, foldl_selectRuleStep_not_mem rest _ _ hnd.1,
        lookupEntry_selectRuleStep_self]
    · have hne : c.name ≠ c0.name := by
        intro hh
        exact hnd.1 (hh ▸ List.mem_map_of_mem Column.name htail)
      rw [List.foldl_cons, ih _ hnd.2 htail, lookupEntry_selectRuleStep_ne _ _ _ hne]

theorem keys_insertRuleStep (es : List (String × FieldSpec)) (c : Column) :
    (insertRuleStep es c).map Prod.fst = es.map Prod.fst := by
  unfold insertRuleStep
  by_cases h1 : c.notNull <;> by_cases h2 : c.hasDefault <;>
    simp [h1, h2, keys_updateEntry]

theorem keys_selectRuleStep (es : List (String × FieldSpec)) (c : Column) :
    (selectRuleStep es c).map Prod.fst = es.map Prod.fst := by
  unfold selectRuleStep
  by_cases h1 : c.notNull <;> simp [h1, keys_updateEntry]

theorem keys_foldl_insertRuleStep (cols : List Column)
    (es : List (String × FieldSpec)) :
    (cols.foldl insertRuleStep es).map Prod.fst = es.map Prod.fst := by
  induction cols generalizing es with
  | nil => rfl
  | cons c0 rest ih => rw [List.foldl_cons, ih, keys_insertRuleStep]

theorem keys_foldl_selectRuleStep (cols : List Column)
    (es : List (String × FieldSpec)) :
    (cols.foldl selectRuleStep es).map Prod.fst = es.map Prod.fst := by
  induction cols generalizing es with
  | nil => rfl
  | cons c0 rest ih => rw [List.foldl_cons, ih, keys_selectRuleStep]

/-! ## Lemmas about the auto-derived mapping -/

theorem lookupEntry_column_map {β : Type} (t : List Column) (g : Column → β)
    (c : Column) (hnd : (t.map Column.name).Nodup) (hc : c ∈ t) :
    lookupEntry (t.map (fun col => (col.name, g col))) c.name = some (g c) := by
  induction t with
  | nil => cases hc
  | cons c0 rest ih =>
    simp only [List.map_cons, List.nodup_cons] at hnd
    rcases List.mem_cons.mp hc with rfl | htail
    · simp [lookupEntry]
    · have hne : c0.name ≠ c.name := by
        intro hh
        exact hnd.1 (hh ▸ List.mem_map_of_mem Column.name htail)
      simp only [List.map_cons, lookupEntry, hne, if_neg]
      exact ih hnd.2 htail

theorem autoEntries_of_nodup (t : List Column) (hnd : (t.map Column.name).Nodup) :
    autoEntries t = t.map (fun c => (c.name, mapColumnToSchema c)) := by
  unfold autoEntries
  apply fromEntries_of_nodup
  simpa [List.map_map, Function.comp_def] using hnd

theorem keys_autoEntries (t : List Column) (hnd : (t.map Column.name).Nodup) :
    (autoEntries t).map Prod.fst = t.map Column.name := by
  rw [autoEntries_of_nodup t hnd]
  simp [List.map_map, Function.comp_def]

theorem lookupEntry_autoEntries (t : List Column) (c : Column)
    (hnd : (t.map Column.name).Nodup) (hc : c ∈ t) :
    lookupEntry (autoEntries t) c.name = some (mapColumnToSchema c) := by
  rw [autoEntries_of_nodup t hnd]
  exact lookupEntry_column_map t mapColumnToSchema c hnd hc

theorem mem_of_lookupEntry {α : Type} (es : List (String × α)) (k : String) (v : α)
    (h : lookupEntry es k = some v) : (k, v) ∈ es := by
  induction es with
  | nil => cases h
  | cons p rest ih =>
    obtain ⟨k', w⟩ := p
    by_cases hk : k' = k
    · subst hk
      simp only [lookupEntry, if_pos] at h
      cases h
      exact List.mem_cons_self _ _
    · simp only [lookupEntry, hk, if_neg] at h
      exact List.mem_cons_of_mem _ (ih h)

/-- The mapper through the column accessors. -/
theorem mapColumnToSchema_eq (c : Column) :
    mapColumnToSchema c =
      mapColumnCore c.dataType c.columnType c.enumValues c.length
        (c.baseColumn.map mapColumnToSchema) := by
  cases c <;> rfl

set_option maxHeartbeats 1000000 in
theorem strictFree_mapColumnCore (dataType columnType : String)
    (enumValues : Option (List String)) (length : Option Nat)
    (baseSchema : Option SchemaV)
    (hb : ∀ s, baseSchema = some s → strictFree s = true) :
    strictFree (mapColumnCore dataType columnType enumValues length baseSchema) = true := by
  unfold mapColumnCore
  dsimp only
  repeat' split
  all_goals simp_all [strictFree, JsonValue]
  rename_i s1 heq
  split at heq
  · rename_i vs
    split at heq
    · split at heq <;> (cases heq; simp [strictFree])
    · cases heq
  · cases heq

theorem strictFree_mapColumnToSchema (c : Column) :
    strictFree (mapColumnToSchema c) = true := by
  induction c with
  | base name dataType columnType notNull hasDefault enumValues length =>
    exact strictFree_mapColumnCore _ _ _ _ _ (by intro s hs; cases hs)
  | array name dataType columnType notNull hasDefault enumValues length b ih =>
    refine strictFree_mapColumnCore _ _ _ _ _ ?_
    intro s hs
    cases hs
    exact ih

/-- For a column whose enum guard fails although it carries an
`enumValues` field, that list is empty. -/
theorem enum_guard_false (c : Column) (h : isWithEnum c = false) :
    ∀ vs, c.enumValues = some vs → vs.length = 0 := by
  intro vs hev
  unfold isWithEnum at h
  rw [hev] at h
  simpa using h

/-! ## Claim theorems -/

/-- Claim C4: a column carrying a non-empty enumerated-values list maps to
the literal-set validator over exactly the declared values, whatever its
data kind (the enum test runs before all kind dispatch, including the
`PgUUID`, custom, json, string and number branches), and any value outside
the declared set fails to decode. -/
theorem enum_values_short_circuit (c : Column) (vs : List String)
    (hev : c.enumValues = some vs) (hne : vs ≠ []) :
    mapColumnToSchema c = .sLiteral vs ∧
      ∀ v : Value, decode (mapColumnToSchema c) v = true →
        ∃ s, v = Value.str s ∧ s ∈ vs := by
  have hmap : mapColumnToSchema c = .sLiteral vs := by
    rw [mapColumnToSchema_eq, hev]
    unfold mapColumnCore
    dsimp only
    simp [List.length_pos.mpr hne, hne]
  refine ⟨hmap, ?_⟩
  intro v hv
  rw [hmap] at hv
  cases v <;> simp [decode] at hv
  next s => exact ⟨s, rfl, hv⟩

/-- Claim C4 witness: a text column declaring three enum values maps to the
literal set and only those strings decode. -/
theorem enum_values_short_circuit_witness :
    mapColumnToSchema
        (.base "difficulty" "string" "PgText" true false
          (some ["beginner", "intermediate", "advanced"]) none)
      = .sLiteral ["beginner", "intermediate", "advanced"] ∧
    ∀ v : Value,
      decode (mapColumnToSchema
        (.base "difficulty" "string" "PgText" true false
          (some ["beginner", "intermediate", "advanced"]) none)) v = true →
      ∃ s, v = Value.str s ∧ s ∈ ["beginner", "intermediate", "advanced"] :=
  enum_values_short_circuit
    (.base "difficulty" "string" "PgText" true false
      (some ["beginner", "intermediate", "advanced"]) none)
    ["beginner", "intermediate", "advanced"] rfl (by decide)

/-- Claim C6 (documents the divergence): the runtime mapper has no
`PgDateString` / `PgTimestampString` case, so a string-kind column of
either variant maps to the plain string validator, which rejects a native
date value and passes strings through — while the code's own type-level
`ColumnSchema` declaration (index.ts:22-23) promises a `Schema<Date,
string>` for exactly these variants. -/
theorem date_string_column_maps_to_plain_string :
    mapColumnToSchema (.base "day" "string" "PgDateString" true false none none)
        = .sString ∧
    mapColumnToSchema (.base "createdAt" "string" "PgTimestampString" true false none none)
        = .sString ∧
    decode SchemaV.sString (Value.date 0) = false ∧
    decode SchemaV.sString (Value.str "2024-01-15T10:30:00Z") = true :=
  ⟨rfl, rfl, rfl, rfl⟩

/-- Claim C7: the mapper is a total function of the column descriptor (it
is a Lean `def`, and the recursive call on an array column's base
descriptor is structural, hence terminating); a column whose data kind
matches no dispatch case — with the enum and `PgUUID` tests also failing —
falls back to the accept-anything validator, which decodes every value. -/
theorem mapper_total_fallback (c : Column)
    (h1 : isWithEnum c = false) (h2 : c.columnType ≠ "PgUUID")
    (h3 : c.dataType ∉ ["custom", "json", "array", "number", "bigint",
      "boolean", "date", "string"]) :
    mapColumnToSchema c = .sAny ∧
      ∀ v : Value, decode (mapColumnToSchema c) v = true := by
  simp only [List.mem_cons, List.mem_singleton, not_or] at h3
  obtain ⟨n1, n2, n3, n4, n5, n6, n7, n8⟩ := h3
  have hmap : mapColumnToSchema c = .sAny := by
    rw [mapColumnToSchema_eq]
    unfold mapColumnCore
    dsimp only
    cases hev : c.enumValues with
    | none => simp [h2, n1, n2, n3, n4, n5, n6, n7, n8]
    | some vs =>
      have hlen : vs.length = 0 := enum_guard_false c h1 vs hev
      simp [hlen, h2, n1, n2, n3, n4, n5, n6, n7, n8]
  refine ⟨hmap, ?_⟩
  intro v
  rw [hmap]
  cases v <;> rfl

/-- Claim C7 witness: a descriptor with an unrecognized data kind maps to
the accept-anything validator. -/
theorem mapper_total_fallback_witness :
    mapColumnToSchema (.base "geom" "geometry" "PgGeometry" true false none none)
        = .sAny ∧
    ∀ v : Value,
      decode (mapColumnToSchema
        (.base "geom" "geometry" "PgGeometry" true false none none)) v = true :=
  mapper_total_fallback (.base "geom" "geometry" "PgGeometry" true false none none)
    rfl (by decide) (by decide)

/-- Claim C8: a json-kind column (without enum values, and not a `PgUUID`)
maps to the shallow `JsonValue` union of string, number, boolean, null,
record-of-unknown and array-of-unknown; the strict recursive schema is a
separate exported definition that no mapper output ever mentions. -/
theorem json_maps_to_shallow (c : Column)
    (h1 : isWithEnum c = false) (h2 : c.columnType ≠ "PgUUID")
    (h3 : c.dataType = "json") :
    mapColumnToSchema c = JsonValue ∧
    JsonValue = SchemaV.sUnion .sString (.sUnion .sNumber (.sUnion .sBoolean
      (.sUnion .sNull (.sUnion (.sRecord .sUnknown) (.sArray .sUnknown))))) ∧
    (∀ c' : Column, strictFree (mapColumnToSchema c') = true) ∧
    strictFree StrictJsonValue = false := by
  have hmap : mapColumnToSchema c = JsonValue := by
    rw [mapColumnToSchema_eq]
    unfold mapColumnCore
    dsimp only
    cases hev : c.enumValues with
    | none => simp [h2, h3]
    | some vs =>
      have hlen : vs.length = 0 := enum_guard_false c h1 vs hev
      simp [hlen, h2, h3]
  exact ⟨hmap, rfl, strictFree_mapColumnToSchema, rfl⟩

/-- Claim C8 witness: a `jsonb` column maps to the shallow JSON union. -/
theorem json_maps_to_shallow_witness :
    mapColumnToSchema (.base "courseData" "json" "PgJsonb" false true none none)
        = JsonValue ∧
    JsonValue = SchemaV.sUnion .sString (.sUnion .sNumber (.sUnion .sBoolean
      (.sUnion .sNull (.sUnion (.sRecord .sUnknown) (.sArray .sUnknown))))) ∧
    (∀ c' : Column, strictFree (mapColumnToSchema c') = true) ∧
    strictFree StrictJsonValue = false :=
  json_maps_to_shallow (.base "courseData" "json" "PgJsonb" false true none none)
    rfl (by decide) rfl

/-- Claim C9: a string-kind column (without enum values, not a `PgUUID`)
gets the max-length bound exactly when it declares a numeric length and
its storage variant is one of the recognized bounded-text variants; with
the bound, a string decodes iff its length is within it; outside those
variants, or without a declared length, the validator is the unbounded
string validator. -/
theorem string_maxlength_bound (c : Column)
    (h1 : isWithEnum c = false) (h2 : c.columnType ≠ "PgUUID")
    (h3 : c.dataType = "string") :
    (mapColumnToSchema c =
      match c.length with
      | some n =>
        if boundedTextVariant c.columnType then .sMaxLength n .sString
        else .sString
      | none => .sString) ∧
    (∀ n, c.length = some n → boundedTextVariant c.columnType = true →
      ∀ s : String, decode (mapColumnToSchema c) (.str s) = decide (s.length ≤ n)) ∧
    ((c.length = none ∨ boundedTextVariant c.columnType = false) →
      mapColumnToSchema c = .sString) := by
  have hmap : mapColumnToSchema c =
      match c.length with
      | some n =>
        if boundedTextVariant c.columnType then SchemaV.sMaxLength n .sString
        else .sString
      | none => .sString := by
    rw [mapColumnToSchema_eq]
    unfold mapColumnCore
    dsimp only
    cases hev : c.enumValues with
    | none => simp [h2, h3]
    | some vs =>
      have hlen : vs.length = 0 := enum_guard_false c h1 vs hev
      simp [hlen, h2, h3]
  refine ⟨hmap, ?_, ?_⟩
  · intro n hn hb s
    rw [hmap, hn]
    simp [hb, decode]
  · intro h
    rw [hmap]
    rcases h with hn | hb
    · rw [hn]
    · cases hl : c.length with
      | none => rfl
      | some n => simp [hb]

/-- Claim C9 witness: `varchar(255)` gets the bound (a 255-character
string decodes, length checked), while an unbounded `text` column and a
non-bounded-variant column with a length stay unbounded. -/
theorem string_maxlength_bound_witness :
    (mapColumnToSchema (.base "title" "string" "PgVarchar" true false none (some 255))
        = .sMaxLength 255 .sString) ∧
    decode (mapColumnToSchema
        (.base "title" "string" "PgVarchar" true false none (some 255)))
        (.str "JavaScript Basics") = decide (("JavaScript Basics").length ≤ 255) := by
  have h := string_maxlength_bound
    (.base "title" "string" "PgVarchar" true false none (some 255))
    rfl (by decide) rfl
  exact ⟨h.1, h.2.1 255 rfl rfl "JavaScript Basics"⟩

/-- Reading through the refinement-evaluation map. -/
theorem lookupEntry_refine_map (r : List (String × RefineArg))
    (entries : List (String × SchemaV)) (k : String) :
    lookupEntry (r.map (fun p => (p.1, refineValue p.2 entries))) k
      = (lookupEntry r k).map (fun a => refineValue a entries) :=
  lookupEntry_map_value r (fun a => refineValue a entries) k

/-- Reading through the plain-schema-to-required-field lift. -/
theorem lookupEntry_lift_fieldSpec (es : List (String × SchemaV)) (k : String) :
    lookupEntry (es.map (fun p => (p.1, (⟨false, p.2⟩ : FieldSpec)))) k
      = (lookupEntry es k).map (fun s => (⟨false, s⟩ : FieldSpec)) :=
  lookupEntry_map_value es (fun s => (⟨false, s⟩ : FieldSpec)) k

/-- Keys are unchanged by the required-field lift. -/
theorem keys_lift_fieldSpec (es : List (String × SchemaV)) :
    (es.map (fun p => (p.1, (⟨false, p.2⟩ : FieldSpec)))).map Prod.fst
      = es.map Prod.fst :=
  keys_map_value es (fun s => (⟨false, s⟩ : FieldSpec))

/-- Keys are unchanged by the refinement-evaluation map. -/
theorem keys_refine_map (r : List (String × RefineArg))
    (entries : List (String × SchemaV)) :
    (r.map (fun p => (p.1, refineValue p.2 entries))).map Prod.fst
      = r.map Prod.fst :=
  keys_map_value r (fun a => refineValue a entries)

/-- The merged entry of a key carrying a refinement is that refinement's
evaluated validator. -/
theorem lookupEntry_mergeRefine (t : List Column) (r : List (String × RefineArg))
    (k : String) (arg : RefineArg)
    (hrnd : (r.map Prod.fst).Nodup) (hr : lookupEntry r k = some arg) :
    lookupEntry (mergeRefine (autoEntries t) r) k
      = some (refineValue arg (autoEntries t)) := by
  unfold mergeRefine
  rw [lookupEntry_assignEntries _ _ _ (by rw [keys_refine_map]; exact hrnd)]
  rw [lookupEntry_refine_map, hr]
  rfl

/-- Claim C2: in insert mode, a nullable column's field is optional and
null-accepting, a non-nullable column with a default is optional only
(present values face the base validator unchanged), and any other column
keeps the base validator as a required field. -/
theorem insert_mode_wrapping (t : List Column) (c : Column)
    (hnd : (t.map Column.name).Nodup) (hc : c ∈ t) :
    lookupEntry (createInsertSchema t none) c.name =
      some (if c.notNull = false then ⟨true, sNullOr (mapColumnToSchema c)⟩
            else if c.hasDefault = true then ⟨true, mapColumnToSchema c⟩
            else ⟨false, mapColumnToSchema c⟩) ∧
    decode (sNullOr (mapColumnToSchema c)) Value.null = true := by
  constructor
  · unfold createInsertSchema
    dsimp only
    rw [foldl_insertRuleStep_mem t _ c hnd hc, lookupEntry_lift_fieldSpec,
      lookupEntry_autoEntries t c hnd hc]
    unfold insertWrap
    by_cases hn : c.notNull <;> by_cases hd : c.hasDefault <;> simp [hn, hd]
  · simp [sNullOr, decode]

/-- Claim C2 witness: a nullable text column becomes optional-and-nullable,
a serial column with a default optional-only, and a plain `varchar`
required with its base validator. -/
theorem insert_mode_wrapping_witness :
    lookupEntry (createInsertSchema
        [Column.base "p" "string" "PgText" false false none none,
         Column.base "q" "number" "PgSerial" true true none none,
         Column.base "r" "string" "PgVarchar" true false none (some 255)] none) "p"
      = some ⟨true, sNullOr .sString⟩ ∧
    lookupEntry (createInsertSchema
        [Column.base "p" "string" "PgText" false false none none,
         Column.base "q" "number" "PgSerial" true true none none,
         Column.base "r" "string" "PgVarchar" true false none (some 255)] none) "q"
      = some ⟨true, .sNumber⟩ ∧
    lookupEntry (createInsertSchema
        [Column.base "p" "string" "PgText" false false none none,
         Column.base "q" "number" "PgSerial" true true none none,
         Column.base "r" "string" "PgVarchar" true false none (some 255)] none) "r"
      = some ⟨false, .sMaxLength 255 .sString⟩ := by
  refine ⟨(insert_mode_wrapping _ (Column.base "p" "string" "PgText" false false none none)
      (by decide) (by simp)).1,
    (insert_mode_wrapping _ (Column.base "q" "number" "PgSerial" true true none none)
      (by decide) (by simp)).1,
    (insert_mode_wrapping _ (Column.base "r" "string" "PgVarchar" true false none (some 255))
      (by decide) (by simp)).1⟩

/-- Claim C3: in select mode, a nullable column's validator is wrapped as
nullable only — the field stays required, null decodes, and a record
missing the field key fails to decode — while a non-nullable column keeps
its base validator; has-default plays no role. -/
theorem select_mode_wrapping (t : List Column) (c : Column)
    (hnd : (t.map Column.name).Nodup) (hc : c ∈ t) :
    lookupEntry (createSelectSchema t none) c.name =
      some (if c.notNull = false then ⟨false, sNullOr (mapColumnToSchema c)⟩
            else ⟨false, mapColumnToSchema c⟩) ∧
    decode (sNullOr (mapColumnToSchema c)) Value.null = true ∧
    ∀ input : List (String × Value), lookupEntry input c.name = none →
      decodeStruct (createSelectSchema t none) input = false := by
  have hsel : lookupEntry (createSelectSchema t none) c.name =
      some (if c.notNull = false then ⟨false, sNullOr (mapColumnToSchema c)⟩
            else ⟨false, mapColumnToSchema c⟩) := by
    unfold createSelectSchema
    dsimp only
    rw [foldl_selectRuleStep_mem t _ c hnd hc, lookupEntry_lift_fieldSpec,
      lookupEntry_autoEntries t c hnd hc]
    unfold selectWrap
    by_cases hn : c.notNull <;> simp [hn]
  refine ⟨hsel, by simp [sNullOr, decode], ?_⟩
  intro input hmiss
  cases hall : decodeStruct (createSelectSchema t none) input with
  | false => rfl
  | true =>
    exfalso
    have hmem := mem_of_lookupEntry _ _ _ hsel
    unfold decodeStruct at hall
    have hfield := List.all_eq_true.mp hall _ hmem
    dsimp only at hfield
    rw [hmiss] at hfield
    by_cases hn : c.notNull = false <;> simp [hn] at hfield

/-- Claim C3 witness: on the table {id serial not-null default, title
varchar(255) not-null, data jsonb nullable default}, the select schema
keeps `data` required but nullable, and decoding a record without the
`data` key fails. -/
theorem select_mode_wrapping_witness :
    lookupEntry (createSelectSchema
        [Column.base "id" "number" "PgSerial" true true none none,
         Column.base "title" "string" "PgVarchar" true false none (some 255),
         Column.base "data" "json" "PgJsonb" false true none none] none) "data"
      = some ⟨false, sNullOr JsonValue⟩ ∧
    decodeStruct (createSelectSchema
        [Column.base "id" "number" "PgSerial" true true none none,
         Column.base "title" "string" "PgVarchar" true false none (some 255),
         Column.base "data" "json" "PgJsonb" false true none none] none)
        [("id", Value.num 1), ("title", Value.str "x")] = false := by
  have h := select_mode_wrapping
    [Column.base "id" "number" "PgSerial" true true none none,
     Column.base "title" "string" "PgVarchar" true false none (some 255),
     Column.base "data" "json" "PgJsonb" false true none none]
    (Column.base "data" "json" "PgJsonb" false true none none)
    (by decide) (by simp)
  exact ⟨h.1, h.2.2 [("id", Value.num 1), ("title", Value.str "x")] rfl⟩

/-- Claim C5: with no refinements, both derived schemas have exactly the
table's column names as their fields, in the table's declared order. -/
theorem derived_fields_match_columns (t : List Column)
    (hnd : (t.map Column.name).Nodup) :
    (createInsertSchema t none).map Prod.fst = t.map Column.name ∧
    (createSelectSchema t none).map Prod.fst = t.map Column.name := by
  constructor
  · unfold createInsertSchema
    dsimp only
    rw [keys_foldl_insertRuleStep, keys_lift_fieldSpec, keys_autoEntries t hnd]
  · unfold createSelectSchema
    dsimp only
    rw [keys_foldl_selectRuleStep, keys_lift_fieldSpec, keys_autoEntries t hnd]

/-- Claim C5 witness: the three-column table yields exactly the three
field names, in declaration order, in both modes. -/
theorem derived_fields_match_columns_witness :
    (createInsertSchema
        [Column.base "id" "number" "PgSerial" true true none none,
         Column.base "title" "string" "PgVarchar" true false none (some 255),
         Column.base "data" "json" "PgJsonb" false true none none] none).map Prod.fst
      = ["id", "title", "data"] ∧
    (createSelectSchema
        [Column.base "id" "number" "PgSerial" true true none none,
         Column.base "title" "string" "PgVarchar" true false none (some 255),
         Column.base "data" "json" "PgJsonb" false true none none] none).map Prod.fst
      = ["id", "title", "data"] :=
  derived_fields_match_columns
    [Column.base "id" "number" "PgSerial" true true none none,
     Column.base "title" "string" "PgVarchar" true false none (some 255),
     Column.base "data" "json" "PgJsonb" false true none none]
    (by decide)

/-- Claim C1, as stated, is false: the wrapping loops run over every table
column after the refinement merge, with no test on the refinement's form.
Concretely, a nullable column refined with a function yields an
optional-and-nullable (insert) / nullable (select) wrapping of the
function's return value, not the unwrapped return value. -/
theorem function_refinement_wrapped_cex :
    createInsertSchema [Column.base "a" "string" "PgText" false false none none]
        (some [("a", RefineArg.fn (fun _ => SchemaV.sBoolean))])
      = [("a", ⟨true, sNullOr SchemaV.sBoolean⟩)] ∧
    createSelectSchema [Column.base "a" "string" "PgText" false false none none]
        (some [("a", RefineArg.fn (fun _ => SchemaV.sBoolean))])
      = [("a", ⟨false, sNullOr SchemaV.sBoolean⟩)] ∧
    (⟨true, sNullOr SchemaV.sBoolean⟩ : FieldSpec) ≠ ⟨false, SchemaV.sBoolean⟩ ∧
    (⟨false, sNullOr SchemaV.sBoolean⟩ : FieldSpec) ≠ ⟨false, SchemaV.sBoolean⟩ :=
  ⟨rfl, rfl, by decide, by decide⟩

/-- Claim C1 amended: the insert/select mode-wrapping is applied to every
table column's merged validator whether its refinement entry is a function
or a plain validator; only refinement keys that are not table columns
escape wrapping. -/
theorem refined_column_still_mode_wrapped (t : List Column)
    (r : List (String × RefineArg)) (c : Column) (arg : RefineArg)
    (hnd : (t.map Column.name).Nodup) (hc : c ∈ t)
    (hrnd : (r.map Prod.fst).Nodup) (hr : lookupEntry r c.name = some arg) :
    lookupEntry (createInsertSchema t (some r)) c.name =
      some (insertWrap c ⟨false, refineValue arg (autoEntries t)⟩) ∧
    lookupEntry (createSelectSchema t (some r)) c.name =
      some (selectWrap c ⟨false, refineValue arg (autoEntries t)⟩) := by
  have hmr := lookupEntry_mergeRefine t r c.name arg hrnd hr
  constructor
  · unfold createInsertSchema
    dsimp only
    rw [foldl_insertRuleStep_mem t _ c hnd hc, lookupEntry_lift_fieldSpec, hmr]
    rfl
  · unfold createSelectSchema
    dsimp only
    rw [foldl_selectRuleStep_mem t _ c hnd hc, lookupEntry_lift_fieldSpec, hmr]
    rfl

/-- Claim C1 amended witness: the function refinement's returned validator
is still wrapped on a nullable column, in both modes. -/
theorem refined_column_still_mode_wrapped_witness :
    lookupEntry (createInsertSchema
        [Column.base "a" "string" "PgText" false false none none]
        (some [("a", RefineArg.fn (fun _ => SchemaV.sBoolean))])) "a"
      = some ⟨true, sNullOr SchemaV.sBoolean⟩ ∧
    lookupEntry (createSelectSchema
        [Column.base "a" "string" "PgText" false false none none]
        (some [("a", RefineArg.fn (fun _ => SchemaV.sBoolean))])) "a"
      = some ⟨false, sNullOr SchemaV.sBoolean⟩ := by
  have h := refined_column_still_mode_wrapped
    [Column.base "a" "string" "PgText" false false none none]
    [("a", RefineArg.fn (fun _ => SchemaV.sBoolean))]
    (Column.base "a" "string" "PgText" false false none none)
    (RefineArg.fn (fun _ => SchemaV.sBoolean))
    (by decide) (by simp) (by decide) rfl
  exact h

/-- Claim C10: a refinement key naming no table column raises no error and
is not dropped — it becomes an additional field of the returned struct,
holding exactly the refinement's evaluated validator, with no mode
wrapping, in both modes. -/
theorem extra_refinement_key_added_unwrapped (t : List Column)
    (r : List (String × RefineArg)) (k : String) (arg : RefineArg)
    (hrnd : (r.map Prod.fst).Nodup)
    (hk : k ∉ t.map Column.name)
    (hr : lookupEntry r k = some arg) :
    lookupEntry (createInsertSchema t (some r)) k =
      some ⟨false, refineValue arg (autoEntries t)⟩ ∧
    lookupEntry (createSelectSchema t (some r)) k =
      some ⟨false, refineValue arg (autoEntries t)⟩ := by
  have hmr := lookupEntry_mergeRefine t r k arg hrnd hr
  constructor
  · unfold createInsertSchema
    dsimp only
    rw [foldl_insertRuleStep_not_mem t _ k hk, lookupEntry_lift_fieldSpec, hmr]
    rfl
  · unfold createSelectSchema
    dsimp only
    rw [foldl_selectRuleStep_not_mem t _ k hk, lookupEntry_lift_fieldSpec, hmr]
    rfl

/-- Claim C10 witness: refining a one-column table under the key "extra"
adds a required, unwrapped "extra" field with the given validator. -/
theorem extra_refinement_key_added_unwrapped_witness :
    lookupEntry (createInsertSchema
        [Column.base "a" "string" "PgText" true false none none]
        (some [("extra", RefineArg.schema SchemaV.sNumber)])) "extra"
      = some ⟨false, SchemaV.sNumber⟩ ∧
    lookupEntry (createSelectSchema
        [Column.base "a" "string" "PgText" true false none none]
        (some [("extra", RefineArg.schema SchemaV.sNumber)])) "extra"
      = some ⟨false, SchemaV.sNumber⟩ := by
  have h := extra_refinement_key_added_unwrapped
    [Column.base "a" "string" "PgText" true false none none]
    [("extra", RefineArg.schema SchemaV.sNumber)]
    "extra" (RefineArg.schema SchemaV.sNumber)
    (by decide) (by decide) rfl
  exact h

end DrizzleEffect
